import Mathlib

/-!
Verification of the fantom-api-graphql core against its specification.

We give a shallow embedding of the relevant Go functions: machine integers
become `Int`/`Nat` with explicit wrap-around where the Go code can overflow,
fallible calls become `Except`/`Option`, and the external collaborators
(database, compiler, HTTP transport) become explicit oracle arguments.

The file is organised as definitions first (one section per embedded
source unit), then the theorems.
-/

namespace FantomApi

/-! ## Machine-integer helpers

Go's `int32`/`uint32` conversions, modelled on `Int`/`Nat` with explicit
two's-complement wrap-around. -/

/-- Wrap an integer into the `int32` range, two's-complement style,
as Go's `int32(x)` conversion does. -/
def int32wrap (n : Int) : Int := (n + 2 ^ 31) % 2 ^ 32 - 2 ^ 31

/-- Go's `uint32(x)` conversion of an `int32` value: reduce modulo `2^32`. -/
def uint32ofInt32 (n : Int) : Nat := (n % 2 ^ 32).toNat

/-! ## listLimitCount (internal/graphql/resolvers, list pagination)

Embeds `listLimitCount(count int32, limit uint32) int32`:

```go
if count == 0 { return int32(limit) }
if (count > 0 && uint32(count) < limit) || (count < 0 && count > -int32(limit)) {
    return count
}
if count < 0 { return -int32(limit) }
return int32(limit)
```

`count` ranges over the `int32` values, `limit` over the `uint32` values;
every Go conversion in the body is rendered by an explicit wrap. -/
def listLimitCount (count : Int) (limit : Nat) : Int :=
  if count = 0 then int32wrap limit
  else if (count > 0 ∧ uint32ofInt32 count < limit % 2 ^ 32) ∨
          (count < 0 ∧ count > int32wrap (-(int32wrap limit))) then count
  else if count < 0 then int32wrap (-(int32wrap limit))
  else int32wrap limit

/-! ## TrxGasSpeed (internal/repository/db/trx_flow.go)

Embeds `MongoDbBridge.TrxGasSpeed(from, to *time.Time)` together with its
helper `trxGasSpeed`.  Instants are modelled as rational seconds (Go times
carry sub-second precision), the Mongo aggregation as an oracle returning
either an error (a failed aggregation, an empty cursor or a decode error)
or the summed gas volume, and the `(float64, error)` result as a pair of a
rational and an optional error message. -/

/-- The aggregated-gas half of the call: Go's inner
`trxGasSpeed(cr, from, to)` reads the single aggregation row and divides
the gas volume by the length of the range in seconds. -/
def trxGasSpeedCalc (volume : Int) (tfrom tto : ℚ) : ℚ :=
  (volume : ℚ) / (tto - tfrom)

/-- `TrxGasSpeed`: reject a range whose start is not strictly before its
end with error `"invalid time range requested"` and result `0.0`;
otherwise forward the aggregation outcome, dividing the gas volume by the
range length on success. -/
def TrxGasSpeed (tfrom tto : ℚ) (aggregated : Except String Int) :
    ℚ × Option String :=
  if ¬ tfrom < tto then (0, some "invalid time range requested")
  else
    match aggregated with
    | .error e => (0, some e)
    | .ok volume => (trxGasSpeedCalc volume tfrom tto, none)

/-! ## Contract validation (internal/validator/validator.go)

Embeds `ContractValidator.ValidateContract(sc *types.Contract)`.  The
collaborators — the repository transaction lookup, the Solidity compiler
(`cv.Compile`), the byte-code matcher (`cv.MatchArtefact`) and the
persistence step (`cv.MarkValidated`), all external to the file — are
oracle arguments.  Besides the returned error the embedding yields the
resulting contract record (unchanged on every failure path) and a record
of which pipeline stages were invoked. -/

/-- The fields of `types.Transaction` the validator reads: the hash, the
optional created-contract address and the deployment input data. -/
structure Transaction where
  hash : String
  contractAddress : Option String
  inputData : String
deriving DecidableEq

/-- The fields of `types.Contract` used by the validator and by the peer
sync: the deploying transaction hash, address, source code, optional
descriptive fields and the `validated` flag. -/
structure Contract where
  transactionHash : String
  address : String
  sourceCode : String
  name : String
  version : String
  supportContact : String
  license : String
  optimizeRuns : Int
  isOptimized : Bool
  validated : Bool
deriving DecidableEq

/-- A compiler output artefact: contract name and compiled byte code. -/
structure Artefact where
  name : String
  code : String
deriving DecidableEq

/-- Which stages of the validation pipeline were invoked. -/
structure VSteps where
  compiled : Bool
  matched : Bool
  persisted : Bool
deriving DecidableEq

/-- Lower-case an ASCII letter, leave every other character alone. -/
def asciiLower (c : Char) : Char :=
  if 65 ≤ c.toNat ∧ c.toNat ≤ 90 then Char.ofNat (c.toNat + 32) else c

/-- Go's `strings.EqualFold` restricted to the ASCII strings the validator
compares (hex addresses): case-insensitive equality via lower-casing. -/
def eqFold (a b : String) : Bool := a.data.map asciiLower == b.data.map asciiLower

/-- `ContractValidator.ValidateContract`: look up the deploying
transaction; fail with the lookup error if absent; fail with
`"invalid contract details"` if the transaction's contract address is
`nil` or does not case-insensitively equal the claimed address; then
compile, match the byte code and persist the result. -/
def ValidateContract
    (repoTransaction : String → Except String Transaction)
    (compile : String → Except String (List Artefact))
    (matchArtefact : List Artefact → String → Option Artefact)
    (markValidated : Contract → Artefact → Except String Contract)
    (sc : Contract) : Except String Contract × Contract × VSteps :=
  match repoTransaction sc.transactionHash with
  | .error e => (.error e, sc, ⟨false, false, false⟩)
  | .ok tx =>
    match tx.contractAddress with
    | none => (.error "invalid contract details", sc, ⟨false, false, false⟩)
    | some ca =>
      if eqFold ca sc.address = false then
        (.error "invalid contract details", sc, ⟨false, false, false⟩)
      else
        match compile sc.sourceCode with
        | .error e => (.error e, sc, ⟨true, false, false⟩)
        | .ok artefacts =>
          match matchArtefact artefacts tx.inputData with
          | none =>
            (.error "deployed contract does not match the source code provided",
              sc, ⟨true, true, false⟩)
          | some art =>
            match markValidated sc art with
            | .error e => (.error e, sc, ⟨true, true, true⟩)
            | .ok sc2 => (.ok sc2, sc2, ⟨true, true, true⟩)

/-! ## Peer validation sync (src/unnamed/part_001, resolvers package)

Embeds the `contractSyncMutationQuery` constant, `contractSyncInput`,
`constructMutationPayload`, `syncContractToPeer` and
`rootResolver.syncContract`.  JSON documents are modelled by an inductive
`Json` type, the HTTP transport by an oracle mapping a request description
to an optional status code (`none` = transport error), and the per-peer
goroutines joined by the wait group as the per-peer result list. -/

/-- A JSON document. -/
inductive Json where
  | str (s : String)
  | num (n : Int)
  | bool (b : Bool)
  | null
  | arr (xs : List Json)
  | obj (fields : List (String × Json))

/-- The GraphQL mutation used to synchronise contract validation with API
peers (`contractSyncMutationQuery`). -/
def contractSyncMutationQuery : String :=
  "mutation($sc:ContractValidationInput!) \x7b validateContract(contract: $sc) \x7b validated \x7d \x7d"

/-- The per-call timeout of a contract sync call, in seconds
(`contractSyncCallTimeout`). -/
def contractSyncCallTimeout : Nat := 60

/-- The `ContractValidationInput` structure sent to peers: address, an
optional name, the source code, optimisation settings and the optional
compiler version, support contact and license fields. -/
structure ContractValidationInput where
  address : String
  name : Option String
  sourceCode : String
  optimizeRuns : Int
  optimized : Bool
  version : Option String
  supportContact : Option String
  license : Option String
deriving DecidableEq

/-- `contractSyncInput`: build the validation input from a contract —
name is always carried (a pointer to the contract's name), version,
support contact and license only when non-empty. -/
def contractSyncInput (con : Contract) : ContractValidationInput :=
  { address := con.address
    name := some con.name
    sourceCode := con.sourceCode
    optimizeRuns := con.optimizeRuns
    optimized := con.isOptimized
    version := if 0 < con.version.length then some con.version else none
    supportContact :=
      if 0 < con.supportContact.length then some con.supportContact else none
    license := if 0 < con.license.length then some con.license else none }

/-- Modelled from the spec: the JSON encoding of `ContractValidationInput`
(the Go struct's JSON field tags are not part of the available source; the
field names `address`, `name`, `sourceCode`, `optimizeRuns`, `optimized`,
`version`, `supportContact`, `license` are taken from the spec's wire
contract).  Optional fields encode as `null` when absent. -/
def ContractValidationInput.toJson (i : ContractValidationInput) : Json :=
  .obj
    [ ("address", .str i.address)
    , ("name", i.name.elim .null .str)
    , ("sourceCode", .str i.sourceCode)
    , ("optimizeRuns", .num i.optimizeRuns)
    , ("optimized", .bool i.optimized)
    , ("version", i.version.elim .null .str)
    , ("supportContact", i.supportContact.elim .null .str)
    , ("license", i.license.elim .null .str) ]

/-- `constructMutationPayload`: the JSON body sent to every peer — a
`query` field holding the fixed mutation string and a `variables` field
carrying the validation input under key `sc`. -/
def constructMutationPayload (con : Contract) : Json :=
  .obj
    [ ("query", .str contractSyncMutationQuery)
    , ("variables", .obj [("sc", (contractSyncInput con).toJson)]) ]

/-- An outbound HTTP request as built by `syncContractToPeer`: method,
target URL, headers, JSON body and the timeout of its context. -/
structure HttpRequest where
  method : String
  url : String
  headers : List (String × String)
  body : Json
  timeoutSeconds : Nat

/-- The request `syncContractToPeer` issues to one peer: a `POST` to the
peer's URL with `Content-Type: application/json`, an `Origin` header
holding this server's configured public address, the mutation payload as
body, under the 60-second timeout context. -/
def buildSyncRequest (payload : Json) (peer origin : String) : HttpRequest :=
  { method := "POST"
    url := peer
    headers := [("Content-Type", "application/json"), ("Origin", origin)]
    body := payload
    timeoutSeconds := contractSyncCallTimeout }

/-- `syncContractToPeer`: send the request and count the attempt as
successful only when the transport answers with HTTP status exactly 200
(`none` models a transport error; the Go code checks
`200 != resp.StatusCode`; any failure is merely logged). -/
def syncContractToPeer (respond : HttpRequest → Option Nat)
    (payload : Json) (peer origin : String) : Bool :=
  match respond (buildSyncRequest payload peer origin) with
  | none => false
  | some status => if 200 ≠ status then false else true

/-- `rootResolver.syncContract`: return immediately when no peers are
configured; otherwise launch one attempt per configured peer and join
them all (the wait group), collecting each peer's success flag.  No
outcome is ever reported to the caller as a failure. -/
def syncContract (peers : List String) (con : Contract) (origin : String)
    (respond : HttpRequest → Option Nat) : List (String × Bool) :=
  if peers.length ≤ 0 then []
  else
    peers.map fun peer =>
      (peer, syncContractToPeer respond (constructMutationPayload con) peer origin)

/-! ## Daily transaction flow rollup (internal/repository/db/trx_flow.go)

Embeds `MongoDbBridge.TrxDailyFlowUpdate(from time.Time)`.  The Mongo
aggregation pipeline `$match` → `$group` (by the `%Y-%m-%d` rendering of
the stamp, summing `amo`, `gas_use` and a per-document `1`) → `$project`
→ `$merge` (into `trx_volume`, on `_id`, `whenMatched: replace`,
`whenNotMatched: insert`) is modelled over explicit lists: transactions
become records of stamp (Unix seconds), amount and gas, the `trx_volume`
collection an association list keyed by the UTC day, and `$merge` a fold
of a replace-or-insert upsert. -/

/-- The fields of a stored transaction read by the rollup: the time stamp
(Unix seconds, the `stamp` field), the amount (`amo`) and the gas used
(`gas_use`). -/
structure TrxRec where
  stamp : Nat
  amo : Int
  gasUse : Int
deriving DecidableEq

/-- One `trx_volume` row: the day's stamp and the summed amount, gas and
transaction count (the pipeline's `volume`, `gas` and `value`). -/
structure DailyAgg where
  stamp : Nat
  volume : Int
  gas : Int
  value : Int
deriving DecidableEq

/-- The `$dateToString "%Y-%m-%d"` grouping key: the UTC day index of a
Unix-seconds stamp. -/
def dayOf (stamp : Nat) : Nat := stamp / 86400

/-- The `$group` accumulator for one day over the selected transactions:
`volume = Σ amo`, `gas = Σ gas_use`, `value = Σ 1`, with the `$project`
stage turning the day key back into a stamp. -/
def aggFor (sel : List TrxRec) (d : Nat) : DailyAgg :=
  let grp := sel.filter fun t => dayOf t.stamp = d
  { stamp := d * 86400
    volume := (grp.map TrxRec.amo).sum
    gas := (grp.map TrxRec.gasUse).sum
    value := grp.length }

/-- The `$match` + `$group` + `$project` stages: the per-day aggregate
rows computed from the transactions with `stamp ≥ from`, keyed by day. -/
def flowRows (tfrom : Nat) (txs : List TrxRec) : List (Nat × DailyAgg) :=
  let sel := txs.filter fun t => tfrom ≤ t.stamp
  ((sel.map fun t => dayOf t.stamp).dedup).map fun d => (d, aggFor sel d)

/-- One `$merge` step for one aggregate row: `whenMatched: replace`
(every stored row with the same day key is replaced by the fresh row),
`whenNotMatched: insert`. -/
def upsertRow (table : List (Nat × DailyAgg)) (kv : Nat × DailyAgg) :
    List (Nat × DailyAgg) :=
  if table.any fun r => r.1 = kv.1 then
    table.map fun r => if r.1 = kv.1 then kv else r
  else table ++ [kv]

/-- The `$merge` stage: fold the fresh aggregate rows into the stored
`trx_volume` collection. -/
def mergeRows (table rows : List (Nat × DailyAgg)) : List (Nat × DailyAgg) :=
  rows.foldl upsertRow table

/-- `TrxDailyFlowUpdate`: recompute the per-day aggregates for all
transactions on or after `from` and merge them into the stored
collection. -/
def TrxDailyFlowUpdate (tfrom : Nat) (txs : List TrxRec)
    (table : List (Nat × DailyAgg)) : List (Nat × DailyAgg) :=
  mergeRows table (flowRows tfrom txs)

/-- A key is settled in a table: some row carries it and every row
carrying it is exactly the given row.  This is the state of a day key
after the `$merge` stage has processed its fresh aggregate row. -/
def keyHolds (table : List (Nat × DailyAgg)) (kv : Nat × DailyAgg) : Prop :=
  (∃ e ∈ table, e.1 = kv.1) ∧ ∀ e ∈ table, e.1 = kv.1 → e = kv

/-! ## uuid (internal/graphql/resolvers/utils.go)

Embeds `uuid()` on the successfully read 16-byte random buffer (bytes are
`Nat` values below 256): the variant and version bit masks
`uuid[8] = uuid[8]&^0xc0 | 0x80` and `uuid[6] = uuid[6]&^0xf0 | 0x40`,
followed by the `"%x-%x-%x-%x-%x"` formatting of the five byte groups
`[0:4] [4:6] [6:8] [8:10] [10:]`, each byte rendered as two lowercase hex
digits. -/

/-- One lowercase hexadecimal digit, as Go's `%x` renders a nibble. -/
def hexDigit (n : Nat) : Char :=
  Char.ofNat (if n < 10 then 48 + n else 87 + n)

/-- Go's `%x` on a byte slice: two lowercase hex digits per byte. -/
def bytesToHexChars : List Nat → List Char
  | [] => []
  | b :: bs => hexDigit (b / 16) :: hexDigit (b % 16) :: bytesToHexChars bs

/-- The variant mask `b &^ 0xc0 | 0x80`: clear the top two bits, set the
top bit — the RFC 4122 variant `10`. -/
def maskVariant (b : Nat) : Nat := b &&& 0x3f ||| 0x80

/-- The version mask `b &^ 0xf0 | 0x40`: clear the high nibble, set it to
`4` — UUID version 4. -/
def maskVersion (b : Nat) : Nat := b &&& 0x0f ||| 0x40

/-- Apply the two in-place updates of `uuid()`: first
`uuid[8] = uuid[8]&^0xc0 | 0x80`, then `uuid[6] = uuid[6]&^0xf0 | 0x40`. -/
def setVariantVersion (r : List Nat) : List Nat :=
  let r8 := r.set 8 (maskVariant (r.getD 8 0))
  r8.set 6 (maskVersion (r8.getD 6 0))

/-- The `"%x-%x-%x-%x-%x"` formatting of the masked buffer over the byte
groups `[0:4] [4:6] [6:8] [8:10] [10:]`. -/
def uuidChars (u : List Nat) : List Char :=
  bytesToHexChars (u.take 4) ++ '-' :: bytesToHexChars ((u.drop 4).take 2)
    ++ '-' :: bytesToHexChars ((u.drop 6).take 2)
    ++ '-' :: bytesToHexChars ((u.drop 8).take 2)
    ++ '-' :: bytesToHexChars (u.drop 10)

/-- `uuid()` on a successfully read 16-byte random buffer. -/
def uuid (r : List Nat) : String := String.mk (uuidChars (setVariantVersion r))

/-- A lowercase hexadecimal digit character (`0`-`9`, `a`-`f`). -/
def isHexDigitChar (c : Char) : Bool :=
  (48 ≤ c.toNat && c.toNat ≤ 57) || (97 ≤ c.toNat && c.toNat ≤ 102)

/-! ## Transaction flow updater service (src/unnamed/part_003, repository)

Embeds `txFlowUpdater.schedule` and `proxy.TrxFlowUpdate`.  The select
loop is driven by an explicit event list (a stop signal or a tick of one
of the two tickers, a flow tick carrying the Unix-seconds wall clock read
inside `TrxFlowUpdate`); the outcome of each underlying repository
operation is an oracle indexed by the step number, consulted — the Go
code only logs errors — but never branched on. -/

/-- `trxFlowUpdateRange = -2 * 24 * time.Hour`, in seconds. -/
def trxFlowUpdateRange : Int := -2 * 24 * 3600

/-- The range start computed by `proxy.TrxFlowUpdate`: the current UTC
time rolled back to midnight (subtract `h*3600 + m*60 + s` seconds — for
whole-second clocks `now % 86400`) plus the negative lookback range. -/
def trxFlowUpdateStart (now : Nat) : Int :=
  (now : Int) - ((now % 86400 : Nat) : Int) + trxFlowUpdateRange

/-- One arrival in the scheduler's select loop: the stop signal, a flow
ticker tick (carrying the wall clock it will read) or a count ticker
tick. -/
inductive SchedEvent where
  | stop
  | flowTick (now : Nat)
  | countTick
deriving DecidableEq

/-- Whether an arrival is the stop signal. -/
def SchedEvent.isStop : SchedEvent → Bool
  | .stop => true
  | _ => false

/-- A repository call made by the scheduler: a transaction count estimate
refresh (`updateTrxCountEstimate`) or a flow rollup recomputation from
the given range start (`TrxFlowUpdate` → `TrxDailyFlowUpdate`). -/
inductive SchedAction where
  | countRefresh
  | flowUpdate (tfrom : Int)
deriving DecidableEq

/-- The repository call performed for one non-stop arrival. -/
def schedEventAction : SchedEvent → SchedAction
  | .flowTick now => .flowUpdate (trxFlowUpdateStart now)
  | _ => .countRefresh

/-- One executed scheduler step: the repository call and whether the
underlying operation failed (failures are logged only). -/
structure SchedStep where
  act : SchedAction
  failed : Bool
deriving DecidableEq

/-- The observable outcome of a scheduler run: the executed steps, the
ticker teardown flags and how many times the shared wait group was
signalled. -/
structure SchedOutcome where
  steps : List SchedStep
  flowTickerStopped : Bool
  countTickerStopped : Bool
  wgDoneCount : Nat
deriving DecidableEq

/-- The select loop of `txFlowUpdater.schedule`: process arrivals until
the stop signal (whose receipt returns from the loop, firing the
deferred teardown — the `Bool` result); each tick's repository call is
recorded together with its oracle outcome, and the loop never branches
on that outcome. -/
def schedLoop (fail : Nat → Bool) : Nat → List SchedEvent → List SchedStep × Bool
  | _, [] => ([], false)
  | _, .stop :: _ => ([], true)
  | k, .flowTick now :: es =>
    let r := schedLoop fail (k + 1) es
    (⟨.flowUpdate (trxFlowUpdateStart now), fail k⟩ :: r.1, r.2)
  | k, .countTick :: es =>
    let r := schedLoop fail (k + 1) es
    (⟨.countRefresh, fail k⟩ :: r.1, r.2)

/-- `txFlowUpdater.schedule`: one immediate count estimate refresh on
start (step 0), then the select loop; when and only when the loop
returns, the deferred block stops both tickers and signals the shared
wait group exactly once. -/
def schedule (fail : Nat → Bool) (events : List SchedEvent) : SchedOutcome :=
  let r := schedLoop fail 1 events
  { steps := ⟨.countRefresh, fail 0⟩ :: r.1
    flowTickerStopped := r.2
    countTickerStopped := r.2
    wgDoneCount := if r.2 then 1 else 0 }

/-! ## Resolver broadcast loop (src/unnamed/part_000, rootResolver.run)

Embeds the select loop of `rootResolver.run`: subscriber registries for
the two event classes, four (un)subscribe control channels and two event
intake channels, with the stop signal returning from the loop and the
deferred block releasing the wait group entry. -/

/-- One arrival in the resolver's select loop. -/
inductive REvent where
  | stop
  | unsubBlock (id : String)
  | unsubTrx (id : String)
  | subBlock (id : String)
  | subTrx (id : String)
  | blockEvt
  | trxEvt
deriving DecidableEq

/-- Whether a resolver arrival is the stop signal. -/
def REvent.isStop : REvent → Bool
  | .stop => true
  | _ => false

/-- The broadcaster state owned by the loop: the two subscriber
registries (subscriber ids) and how many events of each class were
dispatched. -/
structure RState where
  blockSubscribers : List String
  trxSubscribers : List String
  blockDispatches : Nat
  trxDispatches : Nat
deriving DecidableEq

/-- One non-stop iteration of the loop: delete by id on unsubscribe
(idempotent when absent), insert on subscribe, dispatch to the current
registry on an event arrival. -/
def rstep (s : RState) : REvent → RState
  | .stop => s
  | .unsubBlock id => { s with blockSubscribers := s.blockSubscribers.erase id }
  | .unsubTrx id => { s with trxSubscribers := s.trxSubscribers.erase id }
  | .subBlock id => { s with blockSubscribers := id :: s.blockSubscribers }
  | .subTrx id => { s with trxSubscribers := id :: s.trxSubscribers }
  | .blockEvt => { s with blockDispatches := s.blockDispatches + 1 }
  | .trxEvt => { s with trxDispatches := s.trxDispatches + 1 }

/-- `rootResolver.run`: process arrivals until the stop signal is taken,
which returns from the loop; the deferred block then releases the wait
group entry (the `Nat` counts the `wg.Done` calls). -/
def resolverRun (s : RState) : List REvent → RState × Nat
  | [] => (s, 0)
  | .stop :: _ => (s, 1)
  | e :: es => resolverRun (rstep s e) es

/-! ## Request coalescing (rootResolver.cg, golang.org/x/sync/singleflight)

Modelled from the spec: only the field declaration
`cg singleflight.Group` of `rootResolver` is part of the available
source; the `cg.Do` call site wrapping the validation execution and the
group's semantics are modelled from the spec — within a concurrent
window, calls with the same key collapse onto the single in-flight
execution and all receive its result.  A window is a list of arriving
call keys (contract addresses); the group state maps each key to its
in-flight result; `exec i` is the result the `i`-th arrival would
produce were it the one to execute the compile-and-match logic. -/

/-- Modelled from the spec: process one concurrent window of keyed calls
through the single-flight group.  Each output entry is the caller's key,
the result it receives, and whether this caller actually executed. -/
def sfRun {α : Type} (exec : Nat → α) :
    Nat → List (String × α) → List String → List (String × α × Bool)
  | _, _, [] => []
  | i, inflight, key :: ks =>
    match inflight.lookup key with
    | some r => (key, r, false) :: sfRun exec (i + 1) inflight ks
    | none =>
      (key, exec i, true) :: sfRun exec (i + 1) ((key, exec i) :: inflight) ks

/-- Modelled from the spec: a whole concurrent window starting from an
empty group. -/
def singleflightWindow {α : Type} (exec : Nat → α) (keys : List String) :
    List (String × α × Bool) :=
  sfRun exec 0 [] keys

end FantomApi

namespace FantomApi

/-! Helper lemmas about the single-flight group. -/

theorem sfRun_map_fst {α : Type} (exec : Nat → α) (keys : List String) :
    ∀ i inflight, (sfRun exec i inflight keys).map Prod.fst = keys := by
  induction keys with
  | nil => intro i inflight; rfl
  | cons key ks ih =>
    intro i inflight
    unfold sfRun
    cases inflight.lookup key <;> simp [ih]

theorem sfRun_coalesced {α : Type} (exec : Nat → α) (keys : List String) :
    ∀ i inflight k r, inflight.lookup k = some r →
      ∀ e ∈ sfRun exec i inflight keys, e.1 = k →
        e.2.1 = r ∧ e.2.2 = false := by
  induction keys with
  | nil => intro i inflight k r _ e he; cases he
  | cons key ks ih =>
    intro i inflight k r hk e he hek
    unfold sfRun at he
    cases hlk : inflight.lookup key with
    | some r' =>
      rw [hlk] at he
      rcases List.mem_cons.mp he with rfl | htail
      · have hkk : key = k := hek
        subst hkk
        rw [hk] at hlk
        cases hlk
        exact ⟨rfl, rfl⟩
      · exact ih (i + 1) inflight k r hk e htail hek
    | none =>
      rw [hlk] at he
      rcases List.mem_cons.mp he with rfl | htail
      · have hkk : key = k := hek
        subst hkk
        rw [hk] at hlk
        cases hlk
      · have hbne : (k == key) = false := by
          rcases eq_or_ne k key with rfl | hne
          · rw [hk] at hlk; cases hlk
          · exact beq_eq_false_iff_ne.mpr hne
        have hk' : ((key, exec i) :: inflight).lookup k = some r := by
          simp only [List.lookup, hbne]
          exact hk
        exact ih (i + 1) _ k r hk' e htail hek

theorem sfRun_results_agree {α : Type} (exec : Nat → α) (keys : List String) :
    ∀ i inflight k, inflight.lookup k = none →
      ∃ v, ∀ e ∈ sfRun exec i inflight keys, e.1 = k → e.2.1 = v := by
  induction keys with
  | nil =>
    intro i inflight k _
    exact ⟨exec 0, fun e he => absurd he (List.not_mem_nil e)⟩
  | cons key ks ih =>
    intro i inflight k hk
    unfold sfRun
    cases hlk : inflight.lookup key with
    | some r' =>
      obtain ⟨v, hv⟩ := ih (i + 1) inflight k hk
      refine ⟨v, fun e he hek => ?_⟩
      rcases List.mem_cons.mp he with rfl | htail
      · have hkk : key = k := hek
        subst hkk
        rw [hk] at hlk
        cases hlk
      · exact hv e htail hek
    | none =>
      rcases eq_or_ne key k with rfl | hne
      · refine ⟨exec i, fun e he hek => ?_⟩
        rcases List.mem_cons.mp he with rfl | htail
        · rfl
        · have hk' : ((key, exec i) :: inflight).lookup key = some (exec i) := by
            simp [List.lookup]
          exact (sfRun_coalesced exec ks (i + 1) _ key (exec i) hk' e htail hek).1
      · have hbne : (k == key) = false := beq_eq_false_iff_ne.mpr (Ne.symm hne)
        have hk' : ((key, exec i) :: inflight).lookup k = none := by
          simp only [List.lookup, hbne]
          exact hk
        obtain ⟨v, hv⟩ := ih (i + 1) _ k hk'
        refine ⟨v, fun e he hek => ?_⟩
        rcases List.mem_cons.mp he with rfl | htail
        · exact absurd hek hne
        · exact hv e htail hek

theorem sfRun_exec_once {α : Type} (exec : Nat → α) (keys : List String) :
    ∀ i inflight k, inflight.lookup k = none →
      ((sfRun exec i inflight keys).filter
        fun c => c.1 == k && c.2.2).length ≤ 1 := by
  induction keys with
  | nil => intro i inflight k _; exact Nat.zero_le 1
  | cons key ks ih =>
    intro i inflight k hk
    unfold sfRun
    cases hlk : inflight.lookup key with
    | some r' => simpa using ih (i + 1) inflight k hk
    | none =>
      rcases eq_or_ne key k with rfl | hne
      · have hk' : ((key, exec i) :: inflight).lookup key = some (exec i) := by
          simp [List.lookup]
        have hfil : ((sfRun exec (i + 1) ((key, exec i) :: inflight) ks).filter
            fun c => c.1 == key && c.2.2) = [] := by
          refine List.filter_eq_nil_iff.mpr fun e he => ?_
          by_cases hek : e.1 = key
          · have h2 :=
              (sfRun_coalesced exec ks (i + 1) _ key (exec i) hk' e he hek).2
            simp [h2]
          · simp [beq_eq_false_iff_ne.mpr hek]
        simp [List.filter_cons, hfil]
      · have hbne : (k == key) = false := beq_eq_false_iff_ne.mpr (Ne.symm hne)
        have hk' : ((key, exec i) :: inflight).lookup k = none := by
          simp only [List.lookup, hbne]
          exact hk
        have hhead : ((key, exec i, true).1 == k && (key, exec i, true).2.2) =
            false := by
          simp [beq_eq_false_iff_ne.mpr hne]
        simpa [List.filter_cons, hhead] using ih (i + 1) _ k hk'

/-- C9: within one concurrent window, at most one of the requests for a
given contract address executes the compile-and-match logic; every
arriving call is answered (one entry per caller, in arrival order), and
all callers with the same address receive the same result — that of the
single in-flight execution. -/
theorem singleflight_coalescing {α : Type} (exec : Nat → α)
    (keys : List String) (k : String) :
    (singleflightWindow exec keys).map Prod.fst = keys ∧
    ((singleflightWindow exec keys).filter
      fun c => c.1 == k && c.2.2).length ≤ 1 ∧
    (∀ e ∈ singleflightWindow exec keys,
      ∀ e' ∈ singleflightWindow exec keys, e.1 = e'.1 → e.2.1 = e'.2.1) := by
  refine ⟨sfRun_map_fst exec keys 0 [],
    sfRun_exec_once exec keys 0 [] k rfl, ?_⟩
  intro e he e' he' hkk
  obtain ⟨v, hv⟩ := sfRun_results_agree exec keys 0 [] e.1 rfl
  rw [hv e he rfl, hv e' he' hkk.symm]

/-! Helper lemmas about the scheduler and resolver loops. -/

theorem schedLoop_map_act (fail : Nat → Bool) (events : List SchedEvent) :
    ∀ k, (schedLoop fail k events).1.map SchedStep.act =
      (events.takeWhile fun e => !e.isStop).map schedEventAction := by
  induction events with
  | nil => intro k; rfl
  | cons e es ih =>
    intro k
    cases e
    case stop => rfl
    all_goals
      simp [schedLoop, List.takeWhile_cons, SchedEvent.isStop, schedEventAction,
        ih (k + 1)]

theorem schedLoop_stop_true (fail : Nat → Bool) (events : List SchedEvent)
    (h : SchedEvent.stop ∈ events) :
    ∀ k, (schedLoop fail k events).2 = true := by
  induction events with
  | nil => cases h
  | cons e es ih =>
    intro k
    cases e
    case stop => rfl
    all_goals
    · have h' : SchedEvent.stop ∈ es := by
        rcases List.mem_cons.mp h with h0 | h1
        · exact SchedEvent.noConfusion h0
        · exact h1
      simp [schedLoop, ih h' (k + 1)]

theorem resolverRun_stop (revents : List REvent) (h : REvent.stop ∈ revents) :
    ∀ s, resolverRun s revents =
      (List.foldl rstep s (revents.takeWhile fun e => !e.isStop), 1) := by
  induction revents with
  | nil => cases h
  | cons e es ih =>
    intro s
    cases e
    case stop => rfl
    all_goals
    · have h' : REvent.stop ∈ es := by
        rcases List.mem_cons.mp h with h0 | h1
        · exact REvent.noConfusion h0
        · exact h1
      simp [resolverRun, List.takeWhile_cons, REvent.isStop, ih h']

/-- C7: the transaction flow updater's scheduler performs exactly one
immediate count estimate refresh on start (it is the head of the step
trace); the full action trace is that initial refresh followed by one
action per tick before the stop signal — a flow tick calls the
repository flow update with the range start equal to the current UTC
midnight minus the 48-hour lookback, a count tick refreshes the count
estimate — and the trace does not depend on the failure oracle: an error
from an underlying operation never terminates the loop. -/
theorem txFlowUpdater_schedule_spec (fail fail2 : Nat → Bool)
    (events : List SchedEvent) :
    (schedule fail events).steps.head? = some ⟨.countRefresh, fail 0⟩ ∧
    (schedule fail events).steps.map SchedStep.act =
      .countRefresh ::
        (events.takeWhile fun e => !e.isStop).map schedEventAction ∧
    (schedule fail events).steps.map SchedStep.act =
      (schedule fail2 events).steps.map SchedStep.act ∧
    (∀ now : Nat, schedEventAction (.flowTick now) =
      .flowUpdate (((now / 86400 : Nat) : Int) * 86400 - 48 * 3600)) ∧
    schedEventAction .countTick = .countRefresh := by
  have hmid : ∀ now : Nat, trxFlowUpdateStart now =
      ((now / 86400 : Nat) : Int) * 86400 - 48 * 3600 := by
    intro now
    unfold trxFlowUpdateStart trxFlowUpdateRange
    omega
  have hmap : ∀ f : Nat → Bool, (schedule f events).steps.map SchedStep.act =
      .countRefresh ::
        (events.takeWhile fun e => !e.isStop).map schedEventAction := by
    intro f
    show (⟨.countRefresh, f 0⟩ :: (schedLoop f 1 events).1).map SchedStep.act = _
    rw [List.map_cons, schedLoop_map_act f events 1]
  refine ⟨rfl, hmap fail, ?_, ?_, rfl⟩
  · rw [hmap fail, hmap fail2]
  · intro now
    show SchedAction.flowUpdate (trxFlowUpdateStart now) = _
    rw [hmid now]

/-- C8: on receipt of the stop signal each background loop terminates —
the scheduler exits its select loop, stops both tickers and signals the
shared wait group exactly once, processing no tick after the stop; the
resolver's broadcast loop likewise exits, releases its wait group entry
exactly once, and its final state is the fold over only the arrivals
before the stop signal, so no event dispatch is processed after it. -/
theorem stop_signal_teardown (fail : Nat → Bool) (events : List SchedEvent)
    (s : RState) (revents : List REvent)
    (h1 : SchedEvent.stop ∈ events) (h2 : REvent.stop ∈ revents) :
    (schedule fail events).flowTickerStopped = true ∧
    (schedule fail events).countTickerStopped = true ∧
    (schedule fail events).wgDoneCount = 1 ∧
    (schedule fail events).steps.map SchedStep.act =
      .countRefresh ::
        (events.takeWhile fun e => !e.isStop).map schedEventAction ∧
    resolverRun s revents =
      (List.foldl rstep s (revents.takeWhile fun e => !e.isStop), 1) := by
  have hb := schedLoop_stop_true fail events h1 1
  refine ⟨hb, hb, ?_, ?_, resolverRun_stop revents h2 s⟩
  · show (if (schedLoop fail 1 events).2 then 1 else 0) = 1
    rw [hb]
    rfl
  · show (⟨.countRefresh, fail 0⟩ :: (schedLoop fail 1 events).1).map
      SchedStep.act = _
    rw [List.map_cons, schedLoop_map_act fail events 1]

/-- C8 witness: the teardown theorem at a concrete run — the scheduler
sees a count tick and then the stop signal, the resolver loop one
subscription and then the stop signal. -/
theorem stop_signal_teardown_witness :
    (schedule (fun _ => false) [.countTick, .stop]).wgDoneCount = 1 ∧
    (schedule (fun _ => false) [.countTick, .stop]).flowTickerStopped = true ∧
    resolverRun ⟨[], [], 0, 0⟩ [.subBlock "a", .stop] =
      (⟨["a"], [], 0, 0⟩, 1) := by
  have h := stop_signal_teardown (fun _ => false) [.countTick, .stop]
    ⟨[], [], 0, 0⟩ [.subBlock "a", .stop] (by decide) (by decide)
  refine ⟨h.2.2.1, h.1, ?_⟩
  rw [h.2.2.2.2]
  decide

/-! Helper lemmas about the uuid hex formatting. -/

set_option maxRecDepth 8192 in
theorem maskVariant_eq : ∀ b < 256, maskVariant b = b % 64 + 128 := by decide

set_option maxRecDepth 8192 in
theorem maskVersion_eq : ∀ b < 256, maskVersion b = b % 16 + 64 := by decide

theorem hexDigit_inj : ∀ a < 16, ∀ b < 16, hexDigit a = hexDigit b → a = b := by
  decide

theorem hexDigit_isHex : ∀ n < 16, isHexDigitChar (hexDigit n) = true := by decide

theorem bytesToHexChars_all_hex (l : List Nat) (hl : ∀ b ∈ l, b < 256) :
    (bytesToHexChars l).all isHexDigitChar = true := by
  induction l with
  | nil => rfl
  | cons b bs ih =>
    have hb : b < 256 := hl b (by simp)
    simp only [bytesToHexChars, List.all_cons, Bool.and_eq_true]
    exact ⟨hexDigit_isHex _ (by omega), hexDigit_isHex _ (by omega),
      ih fun x hx => hl x (by simp [hx])⟩

theorem byteHex_inj (x y : Nat) (hx : x < 256) (hy : y < 256)
    (h1 : hexDigit (x / 16) = hexDigit (y / 16))
    (h2 : hexDigit (x % 16) = hexDigit (y % 16)) : x = y := by
  have hd := hexDigit_inj (x / 16) (by omega) (y / 16) (by omega) h1
  have hm := hexDigit_inj (x % 16) (by omega) (y % 16) (by omega) h2
  omega

theorem bytesToHexChars_inj (l1 : List Nat) :
    ∀ l2, (∀ b ∈ l1, b < 256) → (∀ b ∈ l2, b < 256) →
    bytesToHexChars l1 = bytesToHexChars l2 → l1 = l2 := by
  induction l1 with
  | nil =>
    intro l2 _ _ h
    cases l2 with
    | nil => rfl
    | cons c cs => exact absurd h (by simp [bytesToHexChars])
  | cons b bs ih =>
    intro l2 h1 h2 h
    cases l2 with
    | nil => exact absurd h (by simp [bytesToHexChars])
    | cons c cs =>
      simp only [bytesToHexChars, List.cons.injEq] at h
      obtain ⟨hhi, hlo, htail⟩ := h
      have hb : b = c :=
        byteHex_inj b c (h1 b (by simp)) (h2 c (by simp)) hhi hlo
      have hbs : bs = cs :=
        ih cs (fun x hx => h1 x (by simp [hx])) (fun x hx => h2 x (by simp [hx]))
          htail
      rw [hb, hbs]

theorem append_hyphen_inj {A1 A2 rest1 rest2 : List Char}
    (h : A1 ++ '-' :: rest1 = A2 ++ '-' :: rest2)
    (hlen : A1.length = A2.length) : A1 = A2 ∧ rest1 = rest2 := by
  obtain ⟨h1, h2⟩ := List.append_inj h hlen
  exact ⟨h1, by simpa using h2⟩

theorem eq_list16 {α : Type} (r : List α) (h : r.length = 16) :
    ∃ a0 a1 a2 a3 a4 a5 a6 a7 a8 a9 a10 a11 a12 a13 a14 a15,
      r = [a0, a1, a2, a3, a4, a5, a6, a7, a8, a9, a10, a11, a12, a13, a14,
        a15] := by
  have hne : r ≠ [] := by rintro rfl; simp at h
  obtain ⟨a0, r, rfl⟩ := List.exists_cons_of_ne_nil hne
  have hne : r ≠ [] := by rintro rfl; simp at h
  obtain ⟨a1, r, rfl⟩ := List.exists_cons_of_ne_nil hne
  have hne : r ≠ [] := by rintro rfl; simp at h
  obtain ⟨a2, r, rfl⟩ := List.exists_cons_of_ne_nil hne
  have hne : r ≠ [] := by rintro rfl; simp at h
  obtain ⟨a3, r, rfl⟩ := List.exists_cons_of_ne_nil hne
  have hne : r ≠ [] := by rintro rfl; simp at h
  obtain ⟨a4, r, rfl⟩ := List.exists_cons_of_ne_nil hne
  have hne : r ≠ [] := by rintro rfl; simp at h
  obtain ⟨a5, r, rfl⟩ := List.exists_cons_of_ne_nil hne
  have hne : r ≠ [] := by rintro rfl; simp at h
  obtain ⟨a6, r, rfl⟩ := List.exists_cons_of_ne_nil hne
  have hne : r ≠ [] := by rintro rfl; simp at h
  obtain ⟨a7, r, rfl⟩ := List.exists_cons_of_ne_nil hne
  have hne : r ≠ [] := by rintro rfl; simp at h
  obtain ⟨a8, r, rfl⟩ := List.exists_cons_of_ne_nil hne
  have hne : r ≠ [] := by rintro rfl; simp at h
  obtain ⟨a9, r, rfl⟩ := List.exists_cons_of_ne_nil hne
  have hne : r ≠ [] := by rintro rfl; simp at h
  obtain ⟨a10, r, rfl⟩ := List.exists_cons_of_ne_nil hne
  have hne : r ≠ [] := by rintro rfl; simp at h
  obtain ⟨a11, r, rfl⟩ := List.exists_cons_of_ne_nil hne
  have hne : r ≠ [] := by rintro rfl; simp at h
  obtain ⟨a12, r, rfl⟩ := List.exists_cons_of_ne_nil hne
  have hne : r ≠ [] := by rintro rfl; simp at h
  obtain ⟨a13, r, rfl⟩ := List.exists_cons_of_ne_nil hne
  have hne : r ≠ [] := by rintro rfl; simp at h
  obtain ⟨a14, r, rfl⟩ := List.exists_cons_of_ne_nil hne
  have hne : r ≠ [] := by rintro rfl; simp at h
  obtain ⟨a15, r, rfl⟩ := List.exists_cons_of_ne_nil hne
  have hr : r = [] := by
    simp only [List.length_cons] at h
    exact List.eq_nil_of_length_eq_zero (by omega)
  subst hr
  exact ⟨a0, a1, a2, a3, a4, a5, a6, a7, a8, a9, a10, a11, a12, a13, a14,
    a15, rfl⟩

/-- C6 counterexample: two distinct 16-byte random inputs that differ
only in the upper nibble of byte 6 — which the version mask overwrites —
produce the same identifier, so distinct random inputs do not always
yield distinct identifiers. -/
theorem uuid_claim_counterexample :
    (List.replicate 16 0 : List Nat) ≠ (List.replicate 16 0).set 6 16 ∧
    ((List.replicate 16 0).set 6 16).length = 16 ∧
    (∀ b ∈ (List.replicate 16 0).set 6 16, b < 256) ∧
    uuid (List.replicate 16 0) = uuid ((List.replicate 16 0).set 6 16) :=
  ⟨by decide, by decide, by decide, rfl⟩

/-- C6 (amended): for every 16-byte value successfully read from the
random source, `uuid` returns a string of five hyphen-separated lowercase
hexadecimal groups of lengths 8-4-4-4-12, with the version nibble (first
hex digit of the third group) fixed to `4` and the variant bits (top two
bits of the ninth byte) fixed to `10`, so the first digit of the fourth
group is one of `8`, `9`, `a`, `b`; and distinct random inputs yield
distinct identifiers except when they differ only in the six bits
overwritten by the version and variant masks (that is, whenever the
masked buffers differ, the identifiers differ). -/
theorem uuid_shape_and_masked_injective (r : List Nat)
    (hlen : r.length = 16) (hbytes : ∀ b ∈ r, b < 256) :
    ∃ g1 g2 g3 g4 g5 : List Char,
      (uuid r).data = g1 ++ '-' :: g2 ++ '-' :: g3 ++ '-' :: g4 ++ '-' :: g5 ∧
      g1.length = 8 ∧ g2.length = 4 ∧ g3.length = 4 ∧ g4.length = 4 ∧
      g5.length = 12 ∧
      g1.all isHexDigitChar = true ∧ g2.all isHexDigitChar = true ∧
      g3.all isHexDigitChar = true ∧ g4.all isHexDigitChar = true ∧
      g5.all isHexDigitChar = true ∧
      g3.head? = some '4' ∧
      (∃ c, g4.head? = some c ∧ (c = '8' ∨ c = '9' ∨ c = 'a' ∨ c = 'b')) ∧
      (∀ r2 : List Nat, r2.length = 16 → (∀ b ∈ r2, b < 256) →
        setVariantVersion r ≠ setVariantVersion r2 → uuid r ≠ uuid r2) := by
  obtain ⟨b0, b1, b2, b3, b4, b5, b6, b7, b8, b9, b10, b11, b12, b13, b14,
    b15, rfl⟩ := eq_list16 r hlen
  have hb0 : b0 < 256 := hbytes b0 (by simp)
  have hb1 : b1 < 256 := hbytes b1 (by simp)
  have hb2 : b2 < 256 := hbytes b2 (by simp)
  have hb3 : b3 < 256 := hbytes b3 (by simp)
  have hb4 : b4 < 256 := hbytes b4 (by simp)
  have hb5 : b5 < 256 := hbytes b5 (by simp)
  have hb6 : b6 < 256 := hbytes b6 (by simp)
  have hb7 : b7 < 256 := hbytes b7 (by simp)
  have hb8 : b8 < 256 := hbytes b8 (by simp)
  have hb9 : b9 < 256 := hbytes b9 (by simp)
  have hb10 : b10 < 256 := hbytes b10 (by simp)
  have hb11 : b11 < 256 := hbytes b11 (by simp)
  have hb12 : b12 < 256 := hbytes b12 (by simp)
  have hb13 : b13 < 256 := hbytes b13 (by simp)
  have hb14 : b14 < 256 := hbytes b14 (by simp)
  have hb15 : b15 < 256 := hbytes b15 (by simp)
  have hm6 : maskVersion b6 < 256 := by rw [maskVersion_eq b6 hb6]; omega
  have hm8 : maskVariant b8 < 256 := by rw [maskVariant_eq b8 hb8]; omega
  refine ⟨bytesToHexChars [b0, b1, b2, b3], bytesToHexChars [b4, b5],
    bytesToHexChars [maskVersion b6, b7],
    bytesToHexChars [maskVariant b8, b9],
    bytesToHexChars [b10, b11, b12, b13, b14, b15],
    rfl, rfl, rfl, rfl, rfl, rfl, ?_, ?_, ?_, ?_, ?_, ?_, ?_, ?_⟩
  · refine bytesToHexChars_all_hex _ fun x hx => ?_
    simp only [List.mem_cons, List.not_mem_nil, or_false] at hx
    rcases hx with rfl | rfl | rfl | rfl
    exacts [hb0, hb1, hb2, hb3]
  · refine bytesToHexChars_all_hex _ fun x hx => ?_
    simp only [List.mem_cons, List.not_mem_nil, or_false] at hx
    rcases hx with rfl | rfl
    exacts [hb4, hb5]
  · refine bytesToHexChars_all_hex _ fun x hx => ?_
    simp only [List.mem_cons, List.not_mem_nil, or_false] at hx
    rcases hx with rfl | rfl
    exacts [hm6, hb7]
  · refine bytesToHexChars_all_hex _ fun x hx => ?_
    simp only [List.mem_cons, List.not_mem_nil, or_false] at hx
    rcases hx with rfl | rfl
    exacts [hm8, hb9]
  · refine bytesToHexChars_all_hex _ fun x hx => ?_
    simp only [List.mem_cons, List.not_mem_nil, or_false] at hx
    rcases hx with rfl | rfl | rfl | rfl | rfl | rfl
    exacts [hb10, hb11, hb12, hb13, hb14, hb15]
  · have h4 : maskVersion b6 / 16 = 4 := by rw [maskVersion_eq b6 hb6]; omega
    simp only [bytesToHexChars, List.head?_cons, h4]
    decide
  · have h8 : maskVariant b8 / 16 = 8 ∨ maskVariant b8 / 16 = 9 ∨
        maskVariant b8 / 16 = 10 ∨ maskVariant b8 / 16 = 11 := by
      rw [maskVariant_eq b8 hb8]
      omega
    rcases h8 with h8 | h8 | h8 | h8
    · exact ⟨'8', by simp only [bytesToHexChars, List.head?_cons, h8]; decide,
        by tauto⟩
    · exact ⟨'9', by simp only [bytesToHexChars, List.head?_cons, h8]; decide,
        by tauto⟩
    · exact ⟨'a', by simp only [bytesToHexChars, List.head?_cons, h8]; decide,
        by tauto⟩
    · exact ⟨'b', by simp only [bytesToHexChars, List.head?_cons, h8]; decide,
        by tauto⟩
  · intro r2 hlen2 hbytes2 hne12 hequ
    apply hne12
    obtain ⟨c0, c1, c2, c3, c4, c5, c6, c7, c8, c9, c10, c11, c12, c13, c14,
      c15, rfl⟩ := eq_list16 r2 hlen2
    have hc0 : c0 < 256 := hbytes2 c0 (by simp)
    have hc1 : c1 < 256 := hbytes2 c1 (by simp)
    have hc2 : c2 < 256 := hbytes2 c2 (by simp)
    have hc3 : c3 < 256 := hbytes2 c3 (by simp)
    have hc4 : c4 < 256 := hbytes2 c4 (by simp)
    have hc5 : c5 < 256 := hbytes2 c5 (by simp)
    have hc6 : c6 < 256 := hbytes2 c6 (by simp)
    have hc7 : c7 < 256 := hbytes2 c7 (by simp)
    have hc8 : c8 < 256 := hbytes2 c8 (by simp)
    have hc9 : c9 < 256 := hbytes2 c9 (by simp)
    have hc10 : c10 < 256 := hbytes2 c10 (by simp)
    have hc11 : c11 < 256 := hbytes2 c11 (by simp)
    have hc12 : c12 < 256 := hbytes2 c12 (by simp)
    have hc13 : c13 < 256 := hbytes2 c13 (by simp)
    have hc14 : c14 < 256 := hbytes2 c14 (by simp)
    have hc15 : c15 < 256 := hbytes2 c15 (by simp)
    have hmc6 : maskVersion c6 < 256 := by rw [maskVersion_eq c6 hc6]; omega
    have hmc8 : maskVariant c8 < 256 := by rw [maskVariant_eq c8 hc8]; omega
    have E : bytesToHexChars [b0, b1, b2, b3] ++ '-' ::
        (bytesToHexChars [b4, b5] ++ '-' ::
        (bytesToHexChars [maskVersion b6, b7] ++ '-' ::
        (bytesToHexChars [maskVariant b8, b9] ++ '-' ::
        bytesToHexChars [b10, b11, b12, b13, b14, b15]))) =
        bytesToHexChars [c0, c1, c2, c3] ++ '-' ::
        (bytesToHexChars [c4, c5] ++ '-' ::
        (bytesToHexChars [maskVersion c6, c7] ++ '-' ::
        (bytesToHexChars [maskVariant c8, c9] ++ '-' ::
        bytesToHexChars [c10, c11, c12, c13, c14, c15]))) :=
      congrArg String.data hequ
    obtain ⟨h1, E⟩ := append_hyphen_inj E rfl
    obtain ⟨h2, E⟩ := append_hyphen_inj E rfl
    obtain ⟨h3, E⟩ := append_hyphen_inj E rfl
    obtain ⟨h4, h5⟩ := append_hyphen_inj E rfl
    have g1eq := bytesToHexChars_inj [b0, b1, b2, b3] [c0, c1, c2, c3]
      (by intro x hx
          simp only [List.mem_cons, List.not_mem_nil, or_false] at hx
          rcases hx with rfl | rfl | rfl | rfl
          exacts [hb0, hb1, hb2, hb3])
      (by intro x hx
          simp only [List.mem_cons, List.not_mem_nil, or_false] at hx
          rcases hx with rfl | rfl | rfl | rfl
          exacts [hc0, hc1, hc2, hc3]) h1
    have g2eq := bytesToHexChars_inj [b4, b5] [c4, c5]
      (by intro x hx
          simp only [List.mem_cons, List.not_mem_nil, or_false] at hx
          rcases hx with rfl | rfl
          exacts [hb4, hb5])
      (by intro x hx
          simp only [List.mem_cons, List.not_mem_nil, or_false] at hx
          rcases hx with rfl | rfl
          exacts [hc4, hc5]) h2
    have g3eq := bytesToHexChars_inj [maskVersion b6, b7] [maskVersion c6, c7]
      (by intro x hx
          simp only [List.mem_cons, List.not_mem_nil, or_false] at hx
          rcases hx with rfl | rfl
          exacts [hm6, hb7])
      (by intro x hx
          simp only [List.mem_cons, List.not_mem_nil, or_false] at hx
          rcases hx with rfl | rfl
          exacts [hmc6, hc7]) h3
    have g4eq := bytesToHexChars_inj [maskVariant b8, b9] [maskVariant c8, c9]
      (by intro x hx
          simp only [List.mem_cons, List.not_mem_nil, or_false] at hx
          rcases hx with rfl | rfl
          exacts [hm8, hb9])
      (by intro x hx
          simp only [List.mem_cons, List.not_mem_nil, or_false] at hx
          rcases hx with rfl | rfl
          exacts [hmc8, hc9]) h4
    have g5eq := bytesToHexChars_inj [b10, b11, b12, b13, b14, b15]
      [c10, c11, c12, c13, c14, c15]
      (by intro x hx
          simp only [List.mem_cons, List.not_mem_nil, or_false] at hx
          rcases hx with rfl | rfl | rfl | rfl | rfl | rfl
          exacts [hb10, hb11, hb12, hb13, hb14, hb15])
      (by intro x hx
          simp only [List.mem_cons, List.not_mem_nil, or_false] at hx
          rcases hx with rfl | rfl | rfl | rfl | rfl | rfl
          exacts [hc10, hc11, hc12, hc13, hc14, hc15]) h5
    simp only [List.cons.injEq, and_true] at g1eq g2eq g3eq g4eq g5eq
    obtain ⟨rfl, rfl, rfl, rfl⟩ := g1eq
    obtain ⟨rfl, rfl⟩ := g2eq
    obtain ⟨hv6, rfl⟩ := g3eq
    obtain ⟨hv8, rfl⟩ := g4eq
    obtain ⟨rfl, rfl, rfl, rfl, rfl, rfl⟩ := g5eq
    show [b0, b1, b2, b3, b4, b5, maskVersion b6, b7, maskVariant b8, b9,
        b10, b11, b12, b13, b14, b15] =
      [b0, b1, b2, b3, b4, b5, maskVersion c6, b7, maskVariant c8, b9,
        b10, b11, b12, b13, b14, b15]
    rw [hv6, hv8]

/-- C6 witness: the amended theorem applied at the concrete input
`0,1,…,15`, whose masked buffer differs from that of the same buffer with
its first byte replaced by `255`, so the two identifiers differ. -/
theorem uuid_shape_and_masked_injective_witness :
    uuid (List.range 16) ≠ uuid ((List.range 16).set 0 255) := by
  obtain ⟨g1, g2, g3, g4, g5, _, _, _, _, _, _, _, _, _, _, _, _, _, hinj⟩ :=
    uuid_shape_and_masked_injective (List.range 16) (by decide) (by decide)
  exact hinj ((List.range 16).set 0 255) (by decide) (by decide) (by decide)

/-! Helper lemmas about the replace-or-insert upsert. -/

theorem keyHolds_upsertRow_self (table : List (Nat × DailyAgg))
    (kv : Nat × DailyAgg) : keyHolds (upsertRow table kv) kv := by
  unfold upsertRow keyHolds
  by_cases h : table.any fun r => r.1 = kv.1
  · rw [if_pos h]
    obtain ⟨e, he, hkey⟩ := List.any_eq_true.mp h
    constructor
    · refine ⟨kv, ?_, rfl⟩
      have heq : (if e.1 = kv.1 then kv else e) = kv := if_pos (by simpa using hkey)
      have hm := List.mem_map_of_mem (fun r => if r.1 = kv.1 then kv else r) he
      simpa only [heq] using hm
    · intro e' he' hk'
      obtain ⟨r, _, hr⟩ := List.mem_map.mp he'
      by_cases hrk : r.1 = kv.1
      · rw [if_pos hrk] at hr
        exact hr.symm
      · rw [if_neg hrk] at hr
        exact absurd (hr ▸ hk') hrk
  · rw [if_neg h]
    constructor
    · exact ⟨kv, by simp, rfl⟩
    · intro e' he' hk'
      rcases List.mem_append.mp he' with hin | hin
      · exact absurd (List.any_eq_true.mpr ⟨e', hin, by simpa using hk'⟩) h
      · simpa using hin

theorem keyHolds_upsertRow_other (table : List (Nat × DailyAgg))
    (kv kv' : Nat × DailyAgg) (hne : kv'.1 ≠ kv.1) (h : keyHolds table kv) :
    keyHolds (upsertRow table kv') kv := by
  obtain ⟨⟨e, he, hkey⟩, hall⟩ := h
  unfold upsertRow
  by_cases hany : table.any fun r => r.1 = kv'.1
  · rw [if_pos hany]
    constructor
    · refine ⟨e, ?_, hkey⟩
      have hne' : ¬ e.1 = kv'.1 := fun hcontra => hne (by rw [← hcontra, hkey])
      have heq : (if e.1 = kv'.1 then kv' else e) = e := if_neg hne'
      have hm := List.mem_map_of_mem (fun r => if r.1 = kv'.1 then kv' else r) he
      simpa only [heq] using hm
    · intro e' he' hk'
      obtain ⟨r, hrmem, hr⟩ := List.mem_map.mp he'
      by_cases hrk : r.1 = kv'.1
      · rw [if_pos hrk] at hr
        exact absurd (hr ▸ hk') hne
      · rw [if_neg hrk] at hr
        exact hall e' (hr ▸ hrmem) hk'
  · rw [if_neg hany]
    constructor
    · exact ⟨e, List.mem_append_left _ he, hkey⟩
    · intro e' he' hk'
      rcases List.mem_append.mp he' with hin | hin
      · exact hall e' hin hk'
      · have : e' = kv' := by simpa using hin
        exact absurd (this ▸ hk') hne

theorem upsertRow_of_keyHolds (table : List (Nat × DailyAgg))
    (kv : Nat × DailyAgg) (h : keyHolds table kv) : upsertRow table kv = table := by
  obtain ⟨⟨e, he, hkey⟩, hall⟩ := h
  unfold upsertRow
  rw [if_pos (List.any_eq_true.mpr ⟨e, he, by simpa using hkey⟩)]
  have hcongr : ∀ r ∈ table, (if r.1 = kv.1 then kv else r) = id r := by
    intro r hr
    by_cases hrk : r.1 = kv.1
    · rw [if_pos hrk]
      exact (hall r hr hrk).symm
    · exact if_neg hrk
  rw [List.map_congr_left hcongr, List.map_id]

theorem keyHolds_mergeRows (rows : List (Nat × DailyAgg))
    (kv : Nat × DailyAgg) (hrows : ∀ r ∈ rows, r.1 ≠ kv.1) :
    ∀ table, keyHolds table kv → keyHolds (mergeRows table rows) kv := by
  induction rows with
  | nil => exact fun table h => h
  | cons r rs ih =>
    intro table h
    have hstep : mergeRows table (r :: rs) = mergeRows (upsertRow table r) rs := rfl
    rw [hstep]
    exact ih (fun q hq => hrows q (List.mem_cons_of_mem r hq)) _
      (keyHolds_upsertRow_other table kv r (hrows r (List.mem_cons_self r rs)) h)

theorem mergeRows_idem (rows : List (Nat × DailyAgg))
    (hnd : (rows.map Prod.fst).Nodup) :
    ∀ table, mergeRows (mergeRows table rows) rows = mergeRows table rows := by
  induction rows with
  | nil => exact fun table => rfl
  | cons r rs ih =>
    intro table
    rw [List.map_cons, List.nodup_cons] at hnd
    have hstep : ∀ t, mergeRows t (r :: rs) = mergeRows (upsertRow t r) rs :=
      fun t => rfl
    rw [hstep, hstep]
    have hkey : keyHolds (mergeRows (upsertRow table r) rs) r := by
      refine keyHolds_mergeRows rs r ?_ _ (keyHolds_upsertRow_self table r)
      intro q hq hcontra
      exact hnd.1 (hcontra ▸ List.mem_map_of_mem Prod.fst hq)
    rw [upsertRow_of_keyHolds _ r hkey]
    exact ih hnd.2 (upsertRow table r)

theorem flowRows_keys_nodup (tfrom : Nat) (txs : List TrxRec) :
    ((flowRows tfrom txs).map Prod.fst).Nodup := by
  have hmap : ∀ (l : List Nat) (f : Nat → DailyAgg),
      ((l.map fun d => (d, f d)).map Prod.fst) = l := by
    intro l f
    rw [List.map_map]
    exact List.map_id l
  unfold flowRows
  rw [hmap]
  exact List.nodup_dedup _

/-- C4: the daily-flow rollup is idempotent — running
`TrxDailyFlowUpdate` twice with the same `from` date over the same
transaction records leaves exactly the rows of a single run: each day's
aggregate is keyed by the day and replaced if already present, inserted
if not, never accumulated onto the previous run's aggregate. -/
theorem trxDailyFlowUpdate_idempotent (tfrom : Nat) (txs : List TrxRec)
    (table : List (Nat × DailyAgg)) :
    TrxDailyFlowUpdate tfrom txs (TrxDailyFlowUpdate tfrom txs table) =
      TrxDailyFlowUpdate tfrom txs table := by
  unfold TrxDailyFlowUpdate
  exact mergeRows_idem (flowRows tfrom txs) (flowRows_keys_nodup tfrom txs) table

/-- C1: if the deploying-transaction lookup fails, `ValidateContract`
returns that error; if the transaction's recorded contract address is
absent or does not case-insensitively equal the claimed address, it
returns the `"invalid contract details"` mismatch error; in both cases no
compilation, matching or persistence stage runs (`VSteps` all false) and
the contract record — hence its `validated` flag — is unchanged. -/
theorem validateContract_early_failure
    (repoTransaction : String → Except String Transaction)
    (compile : String → Except String (List Artefact))
    (matchArtefact : List Artefact → String → Option Artefact)
    (markValidated : Contract → Artefact → Except String Contract)
    (sc : Contract) :
    (∀ e, repoTransaction sc.transactionHash = .error e →
      ValidateContract repoTransaction compile matchArtefact markValidated sc =
        (.error e, sc, ⟨false, false, false⟩)) ∧
    (∀ tx, repoTransaction sc.transactionHash = .ok tx →
      (tx.contractAddress = none ∨
        ∃ ca, tx.contractAddress = some ca ∧ eqFold ca sc.address = false) →
      ValidateContract repoTransaction compile matchArtefact markValidated sc =
        (.error "invalid contract details", sc, ⟨false, false, false⟩)) := by
  constructor
  · intro e he
    simp [ValidateContract, he]
  · intro tx htx hbad
    rcases hbad with hnone | ⟨ca, hca, hfold⟩
    · simp [ValidateContract, htx, hnone]
    · simp [ValidateContract, htx, hca, hfold]

/-- C1 witness: the early-failure behaviour at concrete inputs — a lookup
that fails with `"transaction not found"`, and a lookup returning a
transaction whose contract address `"0xBEEF"` differs case-insensitively
from the claimed `"0xCAFE"`; the oracles for the later stages are never
consulted and the record stays unvalidated. -/
theorem validateContract_early_failure_witness :
    ValidateContract (fun _ => .error "transaction not found")
        (fun _ => .ok []) (fun _ _ => none) (fun c _ => .ok c)
        ⟨"0xT", "0xCAFE", "src", "", "", "", "", 0, false, false⟩ =
      (.error "transaction not found",
        ⟨"0xT", "0xCAFE", "src", "", "", "", "", 0, false, false⟩,
        ⟨false, false, false⟩) ∧
    ValidateContract (fun _ => .ok ⟨"0xT", some "0xBEEF", "input"⟩)
        (fun _ => .ok []) (fun _ _ => none) (fun c _ => .ok c)
        ⟨"0xT", "0xCAFE", "src", "", "", "", "", 0, false, false⟩ =
      (.error "invalid contract details",
        ⟨"0xT", "0xCAFE", "src", "", "", "", "", 0, false, false⟩,
        ⟨false, false, false⟩) := by
  constructor
  · exact (validateContract_early_failure (fun _ => .error "transaction not found")
      (fun _ => .ok []) (fun _ _ => none) (fun c _ => .ok c)
      ⟨"0xT", "0xCAFE", "src", "", "", "", "", 0, false, false⟩).1
      "transaction not found" rfl
  · exact (validateContract_early_failure (fun _ => .ok ⟨"0xT", some "0xBEEF", "input"⟩)
      (fun _ => .ok []) (fun _ _ => none) (fun c _ => .ok c)
      ⟨"0xT", "0xCAFE", "src", "", "", "", "", 0, false, false⟩).2
      ⟨"0xT", some "0xBEEF", "input"⟩ rfl
      (Or.inr ⟨"0xBEEF", rfl, by decide⟩)

/-- C2: every attempted peer sync request is an HTTP POST to the peer's
URL with headers `Content-Type: application/json` and `Origin` set to
this server's configured public address, a body whose `query` field is
exactly the fixed mutation string and whose `variables` field carries the
contract's validation input under key `sc`; the attempt succeeds exactly
when the HTTP status is 200, and it runs under the 60-second timeout
context. -/
theorem syncRequest_wire_contract (con : Contract) (peer origin : String)
    (respond : HttpRequest → Option Nat) :
    (buildSyncRequest (constructMutationPayload con) peer origin).method = "POST" ∧
    (buildSyncRequest (constructMutationPayload con) peer origin).url = peer ∧
    (buildSyncRequest (constructMutationPayload con) peer origin).headers =
      [("Content-Type", "application/json"), ("Origin", origin)] ∧
    (buildSyncRequest (constructMutationPayload con) peer origin).body =
      Json.obj
        [ ("query", .str "mutation($sc:ContractValidationInput!) \x7b validateContract(contract: $sc) \x7b validated \x7d \x7d")
        , ("variables", .obj [("sc", (contractSyncInput con).toJson)]) ] ∧
    (buildSyncRequest (constructMutationPayload con) peer origin).timeoutSeconds = 60 ∧
    (syncContractToPeer respond (constructMutationPayload con) peer origin = true ↔
      respond (buildSyncRequest (constructMutationPayload con) peer origin) = some 200) := by
  refine ⟨rfl, rfl, rfl, rfl, rfl, ?_⟩
  unfold syncContractToPeer
  rcases h : respond (buildSyncRequest (constructMutationPayload con) peer origin) with _ | status
  · simp
  · by_cases h200 : 200 = status
    · subst h200
      simp
    · simp [h200]
      exact fun heq => absurd heq.symm h200

/-- C3: `syncContract` returns the empty outcome list immediately on an
empty peer list; otherwise it performs one attempt per configured peer
and returns the joined outcomes of all of them — the attempt list covers
every peer in order, each outcome depends only on that peer's own
response, and no combination of non-200 or transport failures changes
which peers are attempted or makes the call itself fail. -/
theorem syncContract_fanout (peers : List String) (con : Contract)
    (origin : String) (respond : HttpRequest → Option Nat) :
    syncContract peers con origin respond =
      peers.map (fun peer =>
        (peer, syncContractToPeer respond (constructMutationPayload con) peer origin)) ∧
    (syncContract peers con origin respond).map Prod.fst = peers := by
  have h : syncContract peers con origin respond =
      peers.map (fun peer =>
        (peer, syncContractToPeer respond (constructMutationPayload con) peer origin)) := by
    cases peers with
    | nil => rfl
    | cons p ps => simp [syncContract]
  refine ⟨h, ?_⟩
  rw [h]
  simp only [List.map_map]
  exact List.map_id peers

/-- C5 counterexample: the claim's clamping property fails at
`count = -100`, `limit = 3000000000`: `int32(limit)` wraps to a negative
value, so the in-range test fails and the function returns `1294967296`
(itself a wrapped value) although `|count| < limit` requires `-100`. -/
theorem listLimitCount_claim_counterexample :
    listLimitCount (-100) 3000000000 = 1294967296 ∧
    Int.natAbs (-100) < 3000000000 ∧
    listLimitCount (-100) 3000000000 ≠ -100 := by
  refine ⟨?_, by norm_num, ?_⟩ <;> decide

/-- C5 (amended): for every `int32` count `c` and every positive limit
`L < 2^31` (so that `int32(L)` does not wrap), `listLimitCount` satisfies
`listLimitCount 0 L = L`, `listLimitCount c L = c` when `|c| < L`, and
`listLimitCount c L = sign c * L` when `|c| ≥ L`; in particular
`listLimitCount 150 100 = 100`, `listLimitCount (-150) 100 = -100`,
`listLimitCount 50 100 = 50` and `listLimitCount 0 100 = 100`. -/
theorem listLimitCount_spec (c : Int) (L : Nat)
    (hc₁ : -(2 ^ 31) ≤ c) (hc₂ : c < 2 ^ 31) (hL₀ : 0 < L) (hL : L < 2 ^ 31) :
    (c = 0 → listLimitCount c L = L) ∧
    (c.natAbs < L → c ≠ 0 → listLimitCount c L = c) ∧
    (L ≤ c.natAbs → listLimitCount c L = c.sign * L) := by
  have hwrapL : int32wrap L = L := by
    unfold int32wrap
    omega
  have hwrapNeg : int32wrap (-(L : Int)) = -(L : Int) := by
    unfold int32wrap
    omega
  unfold listLimitCount
  rw [hwrapL, hwrapNeg]
  unfold uint32ofInt32
  rcases lt_trichotomy c 0 with hneg | hzero | hpos
  · have hsign : c.sign = -1 := Int.sign_eq_neg_one_of_neg hneg
    rw [hsign]
    have habs : (c.natAbs : Int) = -c := Int.ofNat_natAbs_of_nonpos (le_of_lt hneg)
    split_ifs <;> omega
  · subst hzero
    simp
  · have hsign : c.sign = 1 := Int.sign_eq_one_of_pos hpos
    rw [hsign]
    have habs : (c.natAbs : Int) = c := Int.natAbs_of_nonneg (le_of_lt hpos)
    have hmod : c % 2 ^ 32 = c := Int.emod_eq_of_lt (le_of_lt hpos) (by omega)
    split_ifs <;> omega

/-- C5 witness: the amended clamping property instantiated at the spec's
concrete examples. -/
theorem listLimitCount_spec_witness :
    listLimitCount 150 100 = 100 ∧ listLimitCount (-150) 100 = -100 ∧
    listLimitCount 50 100 = 50 ∧ listLimitCount 0 100 = 100 := by
  have h150 := (listLimitCount_spec 150 100 (by norm_num) (by norm_num)
    (by norm_num) (by norm_num)).2.2 (by norm_num)
  have hneg := (listLimitCount_spec (-150) 100 (by norm_num) (by norm_num)
    (by norm_num) (by norm_num)).2.2 (by norm_num)
  have h50 := (listLimitCount_spec 50 100 (by norm_num) (by norm_num)
    (by norm_num) (by norm_num)).2.1 (by norm_num) (by norm_num)
  have h0 := (listLimitCount_spec 0 100 (by norm_num) (by norm_num)
    (by norm_num) (by norm_num)).1 rfl
  refine ⟨?_, ?_, h50, ?_⟩
  · simpa using h150
  · simpa using hneg
  · simpa using h0

/-- C10: `TrxGasSpeed` returns the error `"invalid time range requested"`
with result `0.0` whenever `from` is not strictly before `to`; under
`from < to` the successful computation divides the aggregated gas volume
by the strictly positive range length, so the division is well-defined. -/
theorem trxGasSpeed_range_guard (tfrom tto : ℚ) :
    (¬ tfrom < tto → ∀ aggregated,
      TrxGasSpeed tfrom tto aggregated =
        (0, some "invalid time range requested")) ∧
    (tfrom < tto → 0 < tto - tfrom ∧ ∀ volume : Int,
      TrxGasSpeed tfrom tto (.ok volume) =
        ((volume : ℚ) / (tto - tfrom), none)) := by
  constructor
  · intro h aggregated
    simp [TrxGasSpeed, h]
  · intro h
    refine ⟨by linarith, fun volume => ?_⟩
    simp [TrxGasSpeed, not_lt.mpr (le_of_lt h), h, trxGasSpeedCalc]

/-- C10 witness: the guard theorem instantiated at the concrete ranges
`[5, 3]` (invalid) and `[1, 3]` (valid, volume 12). -/
theorem trxGasSpeed_range_guard_witness :
    TrxGasSpeed 5 3 (.ok 7) = (0, some "invalid time range requested") ∧
    TrxGasSpeed 1 3 (.ok 12) = (6, none) := by
  constructor
  · exact (trxGasSpeed_range_guard 5 3).1 (by norm_num) (.ok 7)
  · have h := ((trxGasSpeed_range_guard 1 3).2 (by norm_num)).2 12
    rw [h]
    norm_num

end FantomApi
